import Mathlib

/-!
Formal model of the WWP Revit BIM-Tools extension scripts.

The Python sources are shallowly embedded: Python unicode strings become
`List Char`, CSV files become lists of rows of cells, the host document's
sheet numbers become a map from sheet ids to strings, and the UI-thread
print scheduler becomes a state machine driven by a list of events.
-/

/-- A Python unicode string, modelled as its list of code points. -/
abbrev PyStr := List Char

/-- Shorthand turning a Lean string literal into a `PyStr`. -/
def pstr (s : String) : PyStr := s.toList

/-- The characters Python's `unicode.strip()` removes: the code points with
the Unicode white-space property. -/
def pyIsSpace (c : Char) : Bool :=
  c == ' ' || c == '\t' || c == '\n' || c == '\x0b' || c == '\x0c' ||
  c == '\r' || c == '\x1c' || c == '\x1d' || c == '\x1e' || c == '\x1f' ||
  c == '\x85' || c == '\xa0' || c == ' ' ||
  (decide (' ' <= c) && decide (c <= ' ')) ||
  c == ' ' || c == ' ' || c == ' ' || c == ' ' ||
  c == '　'

/-- Python `text.strip()`: drop white space from both ends. -/
def pyStrip (s : PyStr) : PyStr :=
  ((s.dropWhile pyIsSpace).reverse.dropWhile pyIsSpace).reverse

/-- The byte-order-mark code point U+FEFF. -/
def BOMchar : Char := '﻿'

/-- Python `text.lstrip` of U+FEFF: drop leading U+FEFF characters. -/
def pyLStripBOM (s : PyStr) : PyStr := s.dropWhile (· == BOMchar)

/-- `normalize_match_text` from the print script: strip white space, then
strip leading U+FEFF marks, then NFC-normalize.  NFC normalization is
modelled as the identity, which is exact on NFC-stable text; every other
step is modelled literally. -/
def normalize_match_text (s : PyStr) : PyStr := pyLStripBOM (pyStrip s)

/-- Python `str.lower()` restricted to the code points this script compares
(ASCII suffixes such as ".pdf", ".dwg" and ".csv"). -/
def pyLower (s : PyStr) : PyStr := s.map Char.toLower

/-- Python `s.endswith(suffix)`: the last `suffix.length` characters of `s`
equal `suffix` (false when `s` is shorter). -/
def pyEndsWith (s suffix : PyStr) : Bool :=
  s.drop (s.length - suffix.length) == suffix

example : pyStrip (pstr "  ab c  ") = pstr "ab c" := by decide
example : normalize_match_text (pstr "﻿ x") = pstr " x" := by decide
example : pyEndsWith (pstr "file.PDF") (pstr ".pdf") = false := by decide
example : pyEndsWith (pyLower (pstr "file.PDF")) (pstr ".pdf") = true := by decide

/-! ### PrintSheetsWindow._ensure_pdf_extension and NamingFormat.verify_template -/

/-- `PrintSheetsWindow._ensure_pdf_extension`: `None` and the empty string
are returned unchanged; otherwise a trailing ".dwg" (case-insensitively) is
removed, and ".pdf" is appended unless the value already ends in ".pdf"
case-insensitively.  Python's `value[:-4]` is `take (length - 4)`. -/
def ensure_pdf_extension : Option PyStr → Option PyStr
  | none => none
  | some v =>
    if v = [] then some v
    else
      let v1 := if pyEndsWith (pyLower v) (pstr ".dwg") then v.take (v.length - 4) else v
      if pyEndsWith (pyLower v1) (pstr ".pdf") = false then some (v1 ++ pstr ".pdf")
      else some v1

/-- `NamingFormat.verify_template`: append ".pdf" unless the template already
ends in ".pdf" case-insensitively. -/
def verify_template (value : PyStr) : PyStr :=
  if pyEndsWith (pyLower value) (pstr ".pdf") = false then value ++ pstr ".pdf" else value

lemma pyLower_append (a b : PyStr) : pyLower (a ++ b) = pyLower a ++ pyLower b :=
  List.map_append _ a b

lemma pyEndsWith_append (s t : PyStr) : pyEndsWith (s ++ t) t = true := by
  have h : (s ++ t).length - t.length = s.length := by
    simp [List.length_append]
  simp [pyEndsWith, h, List.drop_left]

lemma pyEndsWith_le (s t : PyStr) (h : pyEndsWith s t = true) : t.length ≤ s.length := by
  have h' : s.drop (s.length - t.length) = t := by simpa [pyEndsWith] using h
  have hlen := congrArg List.length h'
  simp [List.length_drop] at hlen
  omega

lemma pyEndsWith_unique (s a b : PyStr) (ha : pyEndsWith s a = true)
    (hb : pyEndsWith s b = true) (hl : a.length = b.length) : a = b := by
  have ha' : s.drop (s.length - a.length) = a := by simpa [pyEndsWith] using ha
  have hb' : s.drop (s.length - b.length) = b := by simpa [pyEndsWith] using hb
  rw [hl] at ha'
  exact ha'.symm.trans hb'

lemma endsWith_pdf_not_dwg (s : PyStr) (h : pyEndsWith s (pstr ".pdf") = true) :
    pyEndsWith s (pstr ".dwg") = false := by
  cases hd : pyEndsWith s (pstr ".dwg") with
  | false => rfl
  | true =>
    have heq := pyEndsWith_unique s _ _ h hd (by decide)
    exact absurd heq (by decide)

lemma ensure_pdf_extension_output (v : PyStr) (hv : v ≠ []) :
    ∃ w, ensure_pdf_extension (some v) = some w ∧
      pyEndsWith (pyLower w) (pstr ".pdf") = true := by
  rw [ensure_pdf_extension, if_neg hv]
  set v1 := if pyEndsWith (pyLower v) (pstr ".dwg") then v.take (v.length - 4) else v with hv1
  cases hpdf : pyEndsWith (pyLower v1) (pstr ".pdf") with
  | true => exact ⟨v1, by simp [hpdf], hpdf⟩
  | false =>
    refine ⟨v1 ++ pstr ".pdf", by simp [hpdf], ?_⟩
    have hlow : pyLower (v1 ++ pstr ".pdf") = pyLower v1 ++ pstr ".pdf" := by
      rw [pyLower_append]
      have : pyLower (pstr ".pdf") = pstr ".pdf" := by decide
      rw [this]
    rw [hlow]
    exact pyEndsWith_append _ _

lemma ensure_pdf_extension_idem (v : Option PyStr) :
    ensure_pdf_extension (ensure_pdf_extension v) = ensure_pdf_extension v := by
  match v with
  | none => rfl
  | some v =>
    by_cases hv : v = []
    · subst hv
      simp [ensure_pdf_extension]
    · obtain ⟨w, hw, hpdf⟩ := ensure_pdf_extension_output v hv
      rw [hw]
      have hlen : (pstr ".pdf").length ≤ (pyLower w).length := pyEndsWith_le _ _ hpdf
      have hw0 : w ≠ [] := by
        intro h
        subst h
        simp [pyLower] at hlen
        exact absurd hlen (by decide)
      have hdwg : pyEndsWith (pyLower w) (pstr ".dwg") = false :=
        endsWith_pdf_not_dwg _ hpdf
      rw [ensure_pdf_extension, if_neg hw0]
      simp [hdwg, hpdf]

/-- C9: for every non-empty string, `_ensure_pdf_extension` returns a string
ending in ".pdf" case-insensitively, removing a trailing ".dwg" before
appending ".pdf" when absent; it is idempotent; `None` and the empty string
are returned unchanged; and `NamingFormat.verify_template` always yields a
template ending in ".pdf" case-insensitively. -/
theorem C9_ensure_pdf_extension_spec :
    ensure_pdf_extension none = none ∧
    ensure_pdf_extension (some []) = some [] ∧
    (∀ v : PyStr, v ≠ [] → ∃ w, ensure_pdf_extension (some v) = some w ∧
        pyEndsWith (pyLower w) (pstr ".pdf") = true) ∧
    (∀ v : Option PyStr, ensure_pdf_extension (ensure_pdf_extension v) = ensure_pdf_extension v) ∧
    (∀ v : PyStr, pyEndsWith (pyLower v) (pstr ".dwg") = true →
        pyEndsWith (pyLower (v.take (v.length - 4))) (pstr ".pdf") = false →
        ensure_pdf_extension (some v) = some (v.take (v.length - 4) ++ pstr ".pdf")) ∧
    (∀ t : PyStr, pyEndsWith (pyLower (verify_template t)) (pstr ".pdf") = true) := by
  refine ⟨rfl, by simp [ensure_pdf_extension], ensure_pdf_extension_output,
    ensure_pdf_extension_idem, ?_, ?_⟩
  · intro v hdwg hpdf
    have hv : v ≠ [] := by
      intro h
      subst h
      simp [pyLower, pyEndsWith] at hdwg
      exact absurd hdwg (by decide)
    rw [ensure_pdf_extension, if_neg hv]
    simp [hdwg, hpdf]
  · intro t
    rw [verify_template]
    cases hpdf : pyEndsWith (pyLower t) (pstr ".pdf") with
    | true => simp [hpdf]
    | false =>
      simp only [hpdf]
      have hlow : pyLower (t ++ pstr ".pdf") = pyLower t ++ pstr ".pdf" := by
        rw [pyLower_append]
        have : pyLower (pstr ".pdf") = pstr ".pdf" := by decide
        rw [this]
      simp [hlow, pyEndsWith_append]

/-- Witness for C9 at concrete inputs. -/
theorem C9_ensure_pdf_extension_spec_witness :
    (∃ w, ensure_pdf_extension (some (pstr "plan")) = some w ∧
        pyEndsWith (pyLower w) (pstr ".pdf") = true) ∧
    ensure_pdf_extension (some (pstr "plan.DWG"))
      = some ((pstr "plan.DWG").take ((pstr "plan.DWG").length - 4) ++ pstr ".pdf") :=
  ⟨C9_ensure_pdf_extension_spec.2.2.1 (pstr "plan") (by decide),
   C9_ensure_pdf_extension_spec.2.2.2.2.1 (pstr "plan.DWG") (by decide) (by decide)⟩

/-! ### Cleanup scripts: host data model -/

abbrev ElementId := Nat

/-- `DB.ElementId.InvalidElementId` (integer value -1). -/
def InvalidElementId : Int := -1

/-- The built-in categories the cleanup scripts test, as an enumeration
(the scripts only compare the integer codes for equality). -/
inductive RvtBuiltInCategory where
  | OST_IOSDetailGroups
  | OST_IOSModelGroups
  | OST_DetailComponents
  | OST_RepeatingDetail
  | otherCategory (code : Int)
deriving DecidableEq, Repr

inductive RvtCategoryType where
  | annotationType
  | modelType
  | internalType
deriving DecidableEq, Repr

structure RvtCategory where
  categoryType : RvtCategoryType
  builtin : RvtBuiltInCategory
deriving DecidableEq, Repr

/-- A collected host element: its id, the id of its owning group
(`InvalidElementId` when ungrouped), and its category (possibly null). -/
structure RvtElement where
  Id : ElementId
  GroupId : Int
  category : Option RvtCategory
deriving DecidableEq, Repr

/-- `is_ungrouped` from Delete Ungrouped Elements: the element's `GroupId`
equals `InvalidElementId`.  Collected elements are never null, so the
null test of the source is vacuous here. -/
def is_ungrouped (e : RvtElement) : Bool := e.GroupId == InvalidElementId

/-- `is_symbol_like`: annotation category, detail component or repeating
detail. -/
def is_symbol_like (e : RvtElement) : Bool :=
  match e.category with
  | none => false
  | some c =>
    c.categoryType == RvtCategoryType.annotationType ||
    (c.builtin == RvtBuiltInCategory.OST_DetailComponents ||
     c.builtin == RvtBuiltInCategory.OST_RepeatingDetail)

/-- `is_detail_group` from Delete Detail Lines Groups. -/
def is_detail_group (c : Option RvtCategory) : Bool :=
  match c with
  | none => false
  | some c => c.builtin == RvtBuiltInCategory.OST_IOSDetailGroups

/-- `is_model_group` from Delete Detail Lines Groups. -/
def is_model_group (c : Option RvtCategory) : Bool :=
  match c with
  | none => false
  | some c => c.builtin == RvtBuiltInCategory.OST_IOSModelGroups

/-- One loop iteration of `add_ungrouped_ids`: the python `set` of ids is
modelled as a duplicate-free list with a membership test before insertion. -/
def auiStep (acc : List ElementId × Nat) (e : RvtElement) : List ElementId × Nat :=
  if is_ungrouped e = true ∧ e.Id ∉ acc.1 then (acc.1 ++ [e.Id], acc.2 + 1) else acc

/-- `add_ungrouped_ids(elements, ids)`: adds the ids of ungrouped elements
not already present and returns the updated set with the count of newly
added ids. -/
def add_ungrouped_ids (elements : List RvtElement) (ids : List ElementId) :
    List ElementId × Nat :=
  elements.foldl auiStep (ids, 0)

lemma auiFold_spec (elements : List RvtElement) :
    ∀ (ids0 : List ElementId) (n0 : Nat),
      ∃ new : List ElementId,
        (elements.foldl auiStep (ids0, n0)).1 = ids0 ++ new ∧
        (elements.foldl auiStep (ids0, n0)).2 = n0 + new.length ∧
        (∀ i ∈ new, i ∉ ids0 ∧ ∃ e, e ∈ elements ∧ e.Id = i ∧ is_ungrouped e = true) ∧
        (ids0.Nodup → (ids0 ++ new).Nodup) := by
  induction elements with
  | nil =>
    intro ids0 n0
    exact ⟨[], by simp, by simp, by simp, by simp⟩
  | cons e es ih =>
    intro ids0 n0
    by_cases hc : is_ungrouped e = true ∧ e.Id ∉ ids0
    · obtain ⟨new', h1, h2, h3, h4⟩ := ih (ids0 ++ [e.Id]) (n0 + 1)
      refine ⟨e.Id :: new', ?_, ?_, ?_, ?_⟩
      · simpa [List.foldl_cons, auiStep, hc, List.append_assoc] using h1
      · simpa [List.foldl_cons, auiStep, hc, Nat.add_comm, Nat.add_assoc,
          Nat.add_left_comm] using h2
      · intro i hi
        rcases List.mem_cons.mp hi with hi | hi
        · subst hi
          exact ⟨hc.2, e, List.mem_cons_self _ _, rfl, hc.1⟩
        · obtain ⟨hnot, e', he', hid, hu⟩ := h3 i hi
          refine ⟨fun hmem => hnot (List.mem_append_left _ hmem),
            e', List.mem_cons_of_mem _ he', hid, hu⟩
      · intro hnd
        have : (ids0 ++ [e.Id]).Nodup := by
          simp [List.nodup_append, hnd, hc.2]
        simpa [List.append_assoc] using h4 this
    · obtain ⟨new', h1, h2, h3, h4⟩ := ih ids0 n0
      refine ⟨new', ?_, ?_, ?_, h4⟩
      · simpa [List.foldl_cons, auiStep, hc] using h1
      · simpa [List.foldl_cons, auiStep, hc] using h2
      · intro i hi
        obtain ⟨hnot, e', he', hid, hu⟩ := h3 i hi
        exact ⟨hnot, e', List.mem_cons_of_mem _ he', hid, hu⟩

lemma add_ungrouped_ids_spec (elements : List RvtElement) (ids0 : List ElementId) :
    ∃ new : List ElementId,
      (add_ungrouped_ids elements ids0).1 = ids0 ++ new ∧
      (add_ungrouped_ids elements ids0).2 = new.length ∧
      (∀ i ∈ new, i ∉ ids0 ∧ ∃ e, e ∈ elements ∧ e.Id = i ∧ is_ungrouped e = true) ∧
      (ids0.Nodup → (ids0 ++ new).Nodup) := by
  simpa [add_ungrouped_ids] using auiFold_spec elements ids0 0

/-- The eight collection passes of Delete Ungrouped Elements, in script
order; `symbols` is pre-filtered by `is_symbol_like` exactly as in the
script.  Returns the final id set and the eight per-category counts. -/
def collectUngrouped (lines fills tags areas rooms masks notes symbols : List RvtElement) :
    List ElementId × List Nat :=
  let r1 := add_ungrouped_ids lines []
  let r2 := add_ungrouped_ids fills r1.1
  let r3 := add_ungrouped_ids tags r2.1
  let r4 := add_ungrouped_ids areas r3.1
  let r5 := add_ungrouped_ids rooms r4.1
  let r6 := add_ungrouped_ids masks r5.1
  let r7 := add_ungrouped_ids notes r6.1
  let r8 := add_ungrouped_ids (symbols.filter is_symbol_like) r7.1
  (r8.1, [r1.2, r2.2, r3.2, r4.2, r5.2, r6.2, r7.2, r8.2])

/-- One collection pass viewed as a fold step: run `add_ungrouped_ids` on the
accumulated id set and append the pass count. -/
def chainStep (acc : List ElementId × List Nat) (g : List RvtElement) :
    List ElementId × List Nat :=
  let r := add_ungrouped_ids g acc.1
  (r.1, acc.2 ++ [r.2])

lemma chainFold_spec (groups : List (List RvtElement)) :
    ∀ (ids0 : List ElementId) (counts0 : List Nat), ids0.Nodup →
      (groups.foldl chainStep (ids0, counts0)).1.Nodup ∧
      (∀ i ∈ (groups.foldl chainStep (ids0, counts0)).1,
        i ∈ ids0 ∨ ∃ e, (∃ g ∈ groups, e ∈ g) ∧ e.Id = i ∧ is_ungrouped e = true) ∧
      (groups.foldl chainStep (ids0, counts0)).1.length + counts0.sum
        = ids0.length + (groups.foldl chainStep (ids0, counts0)).2.sum := by
  induction groups with
  | nil =>
    intro ids0 counts0 hnd
    exact ⟨hnd, fun i hi => Or.inl hi, rfl⟩
  | cons g gs ih =>
    intro ids0 counts0 hnd
    obtain ⟨new, h1, h2, h3, h4⟩ := add_ungrouped_ids_spec g ids0
    have hnd' : (add_ungrouped_ids g ids0).1.Nodup := by
      rw [h1]
      exact h4 hnd
    obtain ⟨H1, H2, H3⟩ :=
      ih (add_ungrouped_ids g ids0).1 (counts0 ++ [(add_ungrouped_ids g ids0).2]) hnd'
    refine ⟨by simpa [chainStep] using H1, ?_, ?_⟩
    · intro i hi
      have hi' := H2 i (by simpa [chainStep] using hi)
      rcases hi' with hmem | ⟨e, ⟨g', hg', he⟩, hid, hu⟩
      · rw [h1] at hmem
        rcases List.mem_append.mp hmem with hmem | hmem
        · exact Or.inl hmem
        · obtain ⟨_, e, he, hid, hu⟩ := h3 i hmem
          exact Or.inr ⟨e, ⟨g, List.mem_cons_self _ _, he⟩, hid, hu⟩
      · exact Or.inr ⟨e, ⟨g', List.mem_cons_of_mem _ hg', he⟩, hid, hu⟩
    · have hlen : (add_ungrouped_ids g ids0).1.length = ids0.length + new.length := by
        rw [h1]
        simp [List.length_append]
      have hsum : (counts0 ++ [(add_ungrouped_ids g ids0).2]).sum
          = counts0.sum + new.length := by
        simp [h2]
      simp only [List.foldl_cons] at *
      have H3' := H3
      rw [hsum, hlen] at H3'
      have : ((chainStep (ids0, counts0) g)) =
          ((add_ungrouped_ids g ids0).1, counts0 ++ [(add_ungrouped_ids g ids0).2]) := rfl
      rw [this]
      omega

/-- C10: every id collected by Delete Ungrouped Elements comes from an
element whose `GroupId` is `InvalidElementId`; the collected set is
duplicate-free; each pass count equals the number of newly added ids; and
the eight counts sum to the total number of ids submitted for deletion. -/
theorem C10_delete_ungrouped_invariants
    (lines fills tags areas rooms masks notes symbols : List RvtElement) :
    (collectUngrouped lines fills tags areas rooms masks notes symbols).1.Nodup ∧
    (∀ i ∈ (collectUngrouped lines fills tags areas rooms masks notes symbols).1,
      ∃ e, e ∈ lines ++ fills ++ tags ++ areas ++ rooms ++ masks ++ notes ++ symbols ∧
        e.Id = i ∧ e.GroupId = InvalidElementId) ∧
    (collectUngrouped lines fills tags areas rooms masks notes symbols).2.sum
      = (collectUngrouped lines fills tags areas rooms masks notes symbols).1.length ∧
    (∀ (elems : List RvtElement) (ids0 : List ElementId),
      (add_ungrouped_ids elems ids0).1.length
        = ids0.length + (add_ungrouped_ids elems ids0).2) := by
  have hrfl : collectUngrouped lines fills tags areas rooms masks notes symbols
      = [lines, fills, tags, areas, rooms, masks, notes,
          symbols.filter is_symbol_like].foldl chainStep ([], []) := rfl
  obtain ⟨H1, H2, H3⟩ :=
    chainFold_spec
      [lines, fills, tags, areas, rooms, masks, notes, symbols.filter is_symbol_like]
      [] [] List.nodup_nil
  refine ⟨by rw [hrfl]; exact H1, ?_, ?_, ?_⟩
  · intro i hi
    rw [hrfl] at hi
    rcases H2 i hi with hmem | ⟨e, ⟨g, hg, he⟩, hid, hu⟩
    · simp at hmem
    · have hgid : e.GroupId = InvalidElementId := by
        simpa [is_ungrouped] using hu
      refine ⟨e, ?_, hid, hgid⟩
      simp only [List.mem_cons, List.not_mem_nil, or_false] at hg
      have hbig : e ∈ lines ∨ e ∈ fills ∨ e ∈ tags ∨ e ∈ areas ∨ e ∈ rooms ∨
          e ∈ masks ∨ e ∈ notes ∨ e ∈ symbols := by
        rcases hg with h | h | h | h | h | h | h | h <;> subst h
        · exact Or.inl he
        · exact Or.inr (Or.inl he)
        · exact Or.inr (Or.inr (Or.inl he))
        · exact Or.inr (Or.inr (Or.inr (Or.inl he)))
        · exact Or.inr (Or.inr (Or.inr (Or.inr (Or.inl he))))
        · exact Or.inr (Or.inr (Or.inr (Or.inr (Or.inr (Or.inl he)))))
        · exact Or.inr (Or.inr (Or.inr (Or.inr (Or.inr (Or.inr (Or.inl he))))))
        · exact Or.inr (Or.inr (Or.inr (Or.inr (Or.inr (Or.inr (Or.inr
            (List.mem_filter.mp he).1))))))
      simpa [List.mem_append, or_assoc] using hbig
  · rw [hrfl]
    simp only [List.sum_nil, List.length_nil, Nat.add_zero, Nat.zero_add] at H3
    omega
  · intro elems ids0
    obtain ⟨new, h1, h2, _, _⟩ := add_ungrouped_ids_spec elems ids0
    rw [h1, h2]
    simp [List.length_append]

/-- Witness for C10 at a concrete document state. -/
theorem C10_delete_ungrouped_invariants_witness :
    ∃ e, e ∈ ([⟨1, -1, none⟩] : List RvtElement) ++ [] ++ [] ++ [] ++ [] ++ [] ++ [] ++ [] ∧
      e.Id = 1 ∧ e.GroupId = InvalidElementId :=
  (C10_delete_ungrouped_invariants [⟨1, -1, none⟩] [] [] [] [] [] [] []).2.1 1 (by decide)

/-! ### Cleanup scripts: confirmation dialogs and transaction traces -/

/-- Result of the Yes/No `TaskDialog` shown by the cleanup scripts. -/
inductive DialogResult where
  | yes
  | no
  | cancelled
deriving DecidableEq, Repr

/-- An observable modification step performed on the host document. -/
inductive DocAction where
  | startTxn (name : PyStr)
  | deleteElems (ids : List ElementId)
  | commitTxn
deriving DecidableEq, Repr

/-- Clean Design Options: collect design option and option set ids, exit
when both are empty, confirm, and only on Yes delete everything inside one
transaction.  The python `set(option_ids + set_ids)` is modelled as `dedup`
of the concatenation. -/
def cleanDesignOptionsTrace (option_ids set_ids : List ElementId)
    (dialog : DialogResult) : List DocAction :=
  if option_ids = [] ∧ set_ids = [] then []
  else if dialog ≠ DialogResult.yes then []
  else [DocAction.startTxn (pstr "Clean Design Options"),
        DocAction.deleteElems (option_ids ++ set_ids).dedup,
        DocAction.commitTxn]

/-- One iteration of the group-collection loops of Delete Detail Lines
Groups: add the id of a detail or model group (instance or type) to the
set. -/
def dlgStep (acc : List ElementId) (g : RvtElement) : List ElementId :=
  if (is_detail_group g.category || is_model_group g.category) = true ∧ g.Id ∉ acc
  then acc ++ [g.Id] else acc

/-- The deletion set of Delete Detail Lines Groups: detail curves plus
detail/model group instances and types. -/
def detailLinesIds (detail_curve_ids : List ElementId)
    (group_instances group_types : List RvtElement) : List ElementId :=
  (group_types.foldl dlgStep (group_instances.foldl dlgStep detail_curve_ids.dedup))

/-- Delete Detail Lines Groups: exit when nothing was collected, confirm,
and only on Yes delete everything inside one transaction. -/
def deleteDetailLinesTrace (detail_curve_ids : List ElementId)
    (group_instances group_types : List RvtElement) (dialog : DialogResult) :
    List DocAction :=
  if detailLinesIds detail_curve_ids group_instances group_types = [] then []
  else if dialog ≠ DialogResult.yes then []
  else [DocAction.startTxn (pstr "Delete Detail Lines and Groups"),
        DocAction.deleteElems (detailLinesIds detail_curve_ids group_instances group_types),
        DocAction.commitTxn]

/-- Delete Ungrouped Elements: exit when nothing was collected, confirm,
and only on Yes delete everything inside one transaction. -/
def deleteUngroupedTrace
    (lines fills tags areas rooms masks notes symbols : List RvtElement)
    (dialog : DialogResult) : List DocAction :=
  if (collectUngrouped lines fills tags areas rooms masks notes symbols).1 = [] then []
  else if dialog ≠ DialogResult.yes then []
  else [DocAction.startTxn (pstr "Delete Ungrouped Elements"),
        DocAction.deleteElems (collectUngrouped lines fills tags areas rooms masks notes symbols).1,
        DocAction.commitTxn]

/-- The transaction discipline claimed for the cleanup scripts: nothing is
done when the collected set is empty or the dialog answer is not Yes, and
otherwise the whole modification is a single start/delete/commit
transaction. -/
def GuardedSingleTxn (name : PyStr) (ids : List ElementId) (dialog : DialogResult)
    (tr : List DocAction) : Prop :=
  (ids = [] ∨ dialog ≠ DialogResult.yes → tr = []) ∧
  (ids ≠ [] → dialog = DialogResult.yes →
    tr = [DocAction.startTxn name, DocAction.deleteElems ids, DocAction.commitTxn])

lemma guardedSingleTxn_ite (name : PyStr) (ids : List ElementId) (d : DialogResult) :
    GuardedSingleTxn name ids d
      (if ids = [] then []
       else if d ≠ DialogResult.yes then []
       else [DocAction.startTxn name, DocAction.deleteElems ids, DocAction.commitTxn]) := by
  constructor
  · rintro (h | h)
    · simp [h]
    · by_cases hids : ids = [] <;> simp [hids, h]
  · intro hids hyes
    simp [hids, hyes]

/-- C5: in each cleanup script the document is modified only inside a single
transaction opened after the confirmation dialog returns Yes; an empty
collection or any other answer leaves the document untouched. -/
theorem C5_cleanup_transaction_guards
    (option_ids set_ids detail_curve_ids : List ElementId)
    (group_instances group_types : List RvtElement)
    (lines fills tags areas rooms masks notes symbols : List RvtElement)
    (d : DialogResult) :
    GuardedSingleTxn (pstr "Clean Design Options")
      ((option_ids ++ set_ids).dedup) d
      (cleanDesignOptionsTrace option_ids set_ids d) ∧
    GuardedSingleTxn (pstr "Delete Detail Lines and Groups")
      (detailLinesIds detail_curve_ids group_instances group_types) d
      (deleteDetailLinesTrace detail_curve_ids group_instances group_types d) ∧
    GuardedSingleTxn (pstr "Delete Ungrouped Elements")
      ((collectUngrouped lines fills tags areas rooms masks notes symbols).1) d
      (deleteUngroupedTrace lines fills tags areas rooms masks notes symbols d) := by
  refine ⟨?_, guardedSingleTxn_ite _ _ _, guardedSingleTxn_ite _ _ _⟩
  have hempty : (option_ids ++ set_ids).dedup = [] ↔ (option_ids = [] ∧ set_ids = []) := by
    rw [List.dedup_eq_nil, List.append_eq_nil]
  have htrace : cleanDesignOptionsTrace option_ids set_ids d
      = (if (option_ids ++ set_ids).dedup = [] then []
         else if d ≠ DialogResult.yes then []
         else [DocAction.startTxn (pstr "Clean Design Options"),
               DocAction.deleteElems (option_ids ++ set_ids).dedup,
               DocAction.commitTxn]) := by
    rw [cleanDesignOptionsTrace]
    by_cases hb : option_ids = [] ∧ set_ids = []
    · rw [if_pos hb, if_pos (hempty.mpr hb)]
    · rw [if_neg hb, if_neg (fun hc => hb (hempty.mp hc))]
  rw [htrace]
  exact guardedSingleTxn_ite _ _ _

/-- Witness for C5 at concrete collections and dialog answers. -/
theorem C5_cleanup_transaction_guards_witness :
    cleanDesignOptionsTrace [7] [] DialogResult.yes
      = [DocAction.startTxn (pstr "Clean Design Options"),
         DocAction.deleteElems (([7] ++ []).dedup),
         DocAction.commitTxn] ∧
    cleanDesignOptionsTrace [7] [] DialogResult.no = [] ∧
    deleteDetailLinesTrace [] [] [] DialogResult.yes = [] := by
  refine ⟨?_, ?_, ?_⟩
  · exact (C5_cleanup_transaction_guards [7] [] [] [] [] [] [] [] [] [] [] [] []
      DialogResult.yes).1.2 (by decide) rfl
  · exact (C5_cleanup_transaction_guards [7] [] [] [] [] [] [] [] [] [] [] [] []
      DialogResult.no).1.1 (Or.inr (by decide))
  · exact (C5_cleanup_transaction_guards [] [] [] [] [] [] [] [] [] [] [] [] []
      DialogResult.yes).2.1.1 (Or.inl (by decide))

/-! ### PrintScheduler: scheduled job, polling and dispatch -/

/-- `ScheduledJob`: `RunAt` is the scheduled time, `IsRunning` is false on
construction.  Jobs are identified by a construction counter, since the
window always passes a freshly constructed job to `set_job`. -/
structure SchedJob where
  id : Nat
  RunAt : Int
  IsRunning : Bool
deriving DecidableEq, Repr

/-- A dispatch of a job: `_process_schedule` marked it running, cleared the
slot and invoked `_run_print` at time `startedAt`. -/
structure RunEvent where
  jobId : Nat
  runAt : Int
  startedAt : Int
deriving DecidableEq, Repr

/-- The scheduler's mutable state: the single `_job` slot, the construction
counter, the id of the most recently set job, and the log of dispatches. -/
structure SchedulerState where
  job : Option SchedJob
  nextId : Nat
  lastSet : Option Nat
  runs : List RunEvent
deriving DecidableEq, Repr

def initScheduler : SchedulerState := ⟨none, 0, none, []⟩

/-- The calls reaching the scheduler from the UI thread: `set_job` with a
fresh job, `cancel_job`, and `_process_schedule` (invoked identically by the
`Idling` handler and the one-second `DispatcherTimer` tick, both serialized
on the UI thread). -/
inductive SchedulerEvent where
  | setJob (runAt : Int)
  | cancelJob
  | poll (now : Int)
deriving DecidableEq, Repr

/-- One scheduler call.  `poll now` is `_process_schedule`: return when the
slot is empty or the job is already running; before `RunAt` only reminders
are handled; otherwise the job's `IsRunning` is set, the slot is cleared and
the print run is recorded. -/
def schedStep (s : SchedulerState) : SchedulerEvent → SchedulerState
  | SchedulerEvent.setJob runAt =>
    { s with job := some ⟨s.nextId, runAt, false⟩, nextId := s.nextId + 1,
             lastSet := some s.nextId }
  | SchedulerEvent.cancelJob => { s with job := none }
  | SchedulerEvent.poll now =>
    match s.job with
    | none => s
    | some j =>
      if j.IsRunning then s
      else if now < j.RunAt then s
      else { s with job := none, runs := s.runs ++ [⟨j.id, j.RunAt, now⟩] }

/-- The scheduler state after a sequence of UI-thread calls. -/
def schedRun (evs : List SchedulerEvent) : SchedulerState :=
  evs.foldl schedStep initScheduler

/-- Inductive invariant of the scheduler. -/
def SchedInv (s : SchedulerState) : Prop :=
  (∀ r ∈ s.runs, r.runAt ≤ r.startedAt) ∧
  (s.runs.map RunEvent.jobId).Nodup ∧
  (∀ r ∈ s.runs, r.jobId < s.nextId) ∧
  (∀ j, s.job = some j →
    j.id < s.nextId ∧ j.IsRunning = false ∧ s.lastSet = some j.id ∧
    ∀ r ∈ s.runs, r.jobId ≠ j.id)

lemma schedStep_inv (s : SchedulerState) (e : SchedulerEvent) (h : SchedInv s) :
    SchedInv (schedStep s e) := by
  obtain ⟨h1, h2, h3, h4⟩ := h
  cases e with
  | setJob runAt =>
    refine ⟨h1, h2, fun r hr => Nat.lt_succ_of_lt (h3 r hr), ?_⟩
    intro j hj
    simp only [schedStep, Option.some.injEq] at hj
    subst hj
    exact ⟨Nat.lt_succ_self _, rfl, rfl, fun r hr => Nat.ne_of_lt (h3 r hr)⟩
  | cancelJob =>
    refine ⟨h1, h2, h3, ?_⟩
    intro j hj
    simp [schedStep] at hj
  | poll now =>
    cases hjob : s.job with
    | none =>
      simpa [schedStep, hjob] using ⟨h1, h2, h3, h4⟩
    | some j =>
      by_cases hrun : j.IsRunning
      · simpa [schedStep, hjob, hrun] using ⟨h1, h2, h3, h4⟩
      · by_cases hlt : now < j.RunAt
        · simpa [schedStep, hjob, hrun, hlt] using ⟨h1, h2, h3, h4⟩
        · obtain ⟨hjid, -, -, hfresh⟩ := h4 j hjob
          have hstep : schedStep s (SchedulerEvent.poll now)
              = { s with job := none, runs := s.runs ++ [⟨j.id, j.RunAt, now⟩] } := by
            simp [schedStep, hjob, hrun, hlt]
          rw [hstep]
          refine ⟨?_, ?_, ?_, ?_⟩
          · intro r hr
            rcases List.mem_append.mp hr with hr | hr
            · exact h1 r hr
            · rw [List.mem_singleton] at hr
              subst hr
              exact Int.not_lt.mp hlt
          · have hmap : (s.runs ++ [(⟨j.id, j.RunAt, now⟩ : RunEvent)]).map RunEvent.jobId
                = s.runs.map RunEvent.jobId ++ [j.id] := by simp
            rw [hmap, List.nodup_append]
            refine ⟨h2, List.nodup_singleton _, ?_⟩
            intro a ha hb
            rw [List.mem_singleton] at hb
            subst hb
            obtain ⟨r, hr, hrid⟩ := List.mem_map.mp ha
            exact hfresh r hr hrid
          · intro r hr
            rcases List.mem_append.mp hr with hr | hr
            · exact Nat.lt_of_lt_of_le (h3 r hr) (Nat.le_refl _)
            · rw [List.mem_singleton] at hr
              subst hr
              exact hjid
          · intro j' hj'
            simp at hj'
lemma schedFold_inv (evs : List SchedulerEvent) :
    ∀ s : SchedulerState, SchedInv s → SchedInv (evs.foldl schedStep s) := by
  induction evs with
  | nil => exact fun s h => h
  | cons e es ih => exact fun s h => ih _ (schedStep_inv s e h)

lemma schedRun_inv (evs : List SchedulerEvent) : SchedInv (schedRun evs) := by
  apply schedFold_inv
  refine ⟨?_, ?_, ?_, ?_⟩ <;> simp [initScheduler]

/-- C1: in every reachable scheduler state, no recorded print run started
strictly before its job's `RunAt`, and no job was dispatched twice, even
though both the `Idling` handler and the timer tick drive the same
`_process_schedule` routine. -/
theorem C1_scheduler_no_early_start_no_double_run (evs : List SchedulerEvent) :
    (∀ r ∈ (schedRun evs).runs, r.runAt ≤ r.startedAt) ∧
    ((schedRun evs).runs.map RunEvent.jobId).Nodup := by
  obtain ⟨h1, h2, -, -⟩ := schedRun_inv evs
  exact ⟨h1, h2⟩

/-- Witness for C1 on a concrete call sequence. -/
theorem C1_scheduler_witness :
    ((⟨0, 5, 6⟩ : RunEvent).runAt ≤ (⟨0, 5, 6⟩ : RunEvent).startedAt) ∧
    (((schedRun [SchedulerEvent.setJob 5, SchedulerEvent.poll 4, SchedulerEvent.poll 6,
        SchedulerEvent.poll 7]).runs).map RunEvent.jobId).Nodup :=
  ⟨(C1_scheduler_no_early_start_no_double_run
      [SchedulerEvent.setJob 5, SchedulerEvent.poll 4, SchedulerEvent.poll 6,
        SchedulerEvent.poll 7]).1 ⟨0, 5, 6⟩ (by decide),
   (C1_scheduler_no_early_start_no_double_run
      [SchedulerEvent.setJob 5, SchedulerEvent.poll 4, SchedulerEvent.poll 6,
        SchedulerEvent.poll 7]).2⟩

/-- C2: after any call sequence the `_job` slot holds at most one job, and
when non-empty it is the most recently set, not yet dispatched job;
moreover `set_job` overwrites the slot with the new job and `cancel_job`
clears it. -/
theorem C2_scheduler_single_pending_job (evs : List SchedulerEvent) :
    ((schedRun evs).job = none ∨
      ∃ j, (schedRun evs).job = some j ∧ (schedRun evs).lastSet = some j.id ∧
        j.IsRunning = false ∧ ∀ r ∈ (schedRun evs).runs, r.jobId ≠ j.id) ∧
    (∀ (s : SchedulerState) (runAt : Int),
      (schedStep s (SchedulerEvent.setJob runAt)).job = some ⟨s.nextId, runAt, false⟩) ∧
    (∀ s : SchedulerState, (schedStep s SchedulerEvent.cancelJob).job = none) := by
  refine ⟨?_, fun s runAt => rfl, fun s => rfl⟩
  obtain ⟨-, -, -, h4⟩ := schedRun_inv evs
  cases hjob : (schedRun evs).job with
  | none => exact Or.inl rfl
  | some j =>
    obtain ⟨-, hrunning, hlast, hfresh⟩ := h4 j hjob
    exact Or.inr ⟨j, rfl, hlast, hrunning, hfresh⟩

/-- Witness for C2 at a concrete state and call. -/
theorem C2_scheduler_witness :
    (schedStep initScheduler (SchedulerEvent.setJob 5)).job = some ⟨0, 5, false⟩ :=
  (C2_scheduler_single_pending_job []).2.1 initScheduler 5

/-! ### PrintScheduler reminder marks -/

/-- Python `int()` truncation toward zero, on rationals (the remaining time
`(job.RunAt - DateTime.Now).TotalSeconds` is real-valued; rationals model it
without floating-point rounding). -/
def pyInt (q : ℚ) : ℤ :=
  if q < 0 then -((-q).num / ((-q).den : ℤ)) else q.num / (q.den : ℤ)

lemma pyInt_eq_floor (q : ℚ) (h : 0 ≤ q) : pyInt q = ⌊q⌋ := by
  rw [pyInt, if_neg (not_lt.mpr h), ← Rat.floor_def]

/-- The two sequential clamps `if mark < 20: mark = 20` and
`if mark > 60: mark = 60`. -/
def reminderClamp (m : ℤ) : ℤ := if m < 20 then 20 else if m > 60 then 60 else m

/-- `PrintScheduler._get_due_reminder_mark(job, remaining_seconds)`; the
job's `RemindersShown` set is the `shown` argument.  The integer divisions
are applied to positive operands, where Lean's division agrees with
Python's floor division. -/
def get_due_reminder_mark (shown : Finset ℤ) (remaining_seconds : ℚ) : Option ℤ :=
  if remaining_seconds ≤ 0 then none
  else if pyInt remaining_seconds ≤ 0 then none
  else if pyInt remaining_seconds ≤ 10 then
    (if pyInt remaining_seconds ∈ shown then none else some (pyInt remaining_seconds))
  else if pyInt remaining_seconds ≤ 60 then
    (if reminderClamp ((pyInt remaining_seconds + 9) / 10 * 10) ∈ shown then none
     else some (reminderClamp ((pyInt remaining_seconds + 9) / 10 * 10)))
  else if pyInt remaining_seconds ≤ 300 ∧ (300:ℤ) ∉ shown then some 300
  else none

/-- `PrintScheduler._handle_reminders`: when a mark is due it is shown and
recorded in the job's `RemindersShown` set (all marks are nonzero, so the
python truthiness test `if not mark` is the `Option` test). -/
def handle_reminders (shown : Finset ℤ) (remaining : ℚ) : Finset ℤ × Option ℤ :=
  match get_due_reminder_mark shown remaining with
  | none => (shown, none)
  | some m => (insert m shown, some m)

/-- The reminders emitted over a sequence of polls of the same job. -/
def reminderTrace (shown : Finset ℤ) : List ℚ → Finset ℤ × List ℤ
  | [] => (shown, [])
  | q :: qs =>
    ((reminderTrace (handle_reminders shown q).1 qs).1,
      (handle_reminders shown q).2.toList ++ (reminderTrace (handle_reminders shown q).1 qs).2)

lemma gdrm_not_shown (shown : Finset ℤ) (q : ℚ) (m : ℤ)
    (h : get_due_reminder_mark shown q = some m) : m ∉ shown := by
  rw [get_due_reminder_mark] at h
  split_ifs at h <;> simp_all

lemma gdrm_mid (shown : Finset ℤ) (q : ℚ) (h0 : 0 < q) (h1 : 11 ≤ pyInt q)
    (h2 : pyInt q ≤ 60) :
    get_due_reminder_mark shown q
      = (if (pyInt q + 9) / 10 * 10 ∈ shown then none
         else some ((pyInt q + 9) / 10 * 10)) := by
  have hcl : reminderClamp ((pyInt q + 9) / 10 * 10) = (pyInt q + 9) / 10 * 10 := by
    rw [reminderClamp, if_neg (by omega), if_neg (by omega)]
  rw [get_due_reminder_mark, if_neg (not_le.mpr h0), if_neg (by omega), if_neg (by omega),
    if_pos h2, hcl]

lemma reminderTrace_spec (qs : List ℚ) :
    ∀ shown : Finset ℤ,
      (reminderTrace shown qs).2.Nodup ∧
      (∀ m ∈ (reminderTrace shown qs).2, m ∉ shown) ∧
      shown ⊆ (reminderTrace shown qs).1 := by
  induction qs with
  | nil =>
    intro shown
    refine ⟨List.nodup_nil, ?_, Finset.Subset.refl _⟩
    intro m hm
    simp [reminderTrace] at hm
  | cons q qs ih =>
    intro shown
    cases hm : get_due_reminder_mark shown q with
    | none =>
      have hstep : handle_reminders shown q = (shown, none) := by
        rw [handle_reminders, hm]
      obtain ⟨H1, H2, H3⟩ := ih shown
      refine ⟨?_, ?_, ?_⟩
      · simpa [reminderTrace, hstep] using H1
      · intro m hmem
        rw [show (reminderTrace shown (q :: qs)).2
            = (reminderTrace shown qs).2 by simp [reminderTrace, hstep]] at hmem
        exact H2 m hmem
      · simpa [reminderTrace, hstep] using H3
    | some m0 =>
      have hstep : handle_reminders shown q = (insert m0 shown, some m0) := by
        rw [handle_reminders, hm]
      have hnot : m0 ∉ shown := gdrm_not_shown shown q m0 hm
      obtain ⟨H1, H2, H3⟩ := ih (insert m0 shown)
      have hsnd : (reminderTrace shown (q :: qs)).2
          = m0 :: (reminderTrace (insert m0 shown) qs).2 := by
        simp [reminderTrace, hstep]
      refine ⟨?_, ?_, ?_⟩
      · rw [hsnd, List.nodup_cons]
        exact ⟨fun hmem => (H2 m0 hmem) (Finset.mem_insert_self _ _), H1⟩
      · intro m hmem
        rw [hsnd] at hmem
        rcases List.mem_cons.mp hmem with rfl | hmem
        · exact hnot
        · exact fun hin => (H2 m hmem) (Finset.mem_insert_of_mem hin)
      · rw [show (reminderTrace shown (q :: qs)).1
            = (reminderTrace (insert m0 shown) qs).1 by simp [reminderTrace, hstep]]
        exact (Finset.subset_insert _ _).trans H3

/-- C8 (amended): no mark for non-positive remaining time or a zero integer
part, the integer (floored) remaining time itself in the final 10 whole
seconds, the floored remaining time rounded up to a multiple of 10 within
20..60 for floored remaining times of 11..60 seconds, the one-time
300-second mark for floored remaining times of 61..300 seconds, nothing
past 300 seconds, each mark withheld when already recorded and therefore
emitted at most once per job over any poll sequence. -/
theorem C8_reminder_marks (q : ℚ) (shown : Finset ℤ) :
    (q ≤ 0 → get_due_reminder_mark shown q = none) ∧
    (pyInt q ≤ 0 → get_due_reminder_mark shown q = none) ∧
    (0 < q → 1 ≤ pyInt q → pyInt q ≤ 10 →
      get_due_reminder_mark shown q
        = if pyInt q ∈ shown then none else some (pyInt q)) ∧
    (0 < q → 11 ≤ pyInt q → pyInt q ≤ 60 →
      ∃ m : ℤ, get_due_reminder_mark shown q = (if m ∈ shown then none else some m) ∧
        m % 10 = 0 ∧ pyInt q ≤ m ∧ m ≤ pyInt q + 9 ∧ 20 ≤ m ∧ m ≤ 60) ∧
    (0 < q → 61 ≤ pyInt q → pyInt q ≤ 300 →
      get_due_reminder_mark shown q
        = if (300:ℤ) ∈ shown then none else some 300) ∧
    (0 < q → 301 ≤ pyInt q → get_due_reminder_mark shown q = none) ∧
    (∀ m, get_due_reminder_mark shown q = some m → m ∉ shown) ∧
    (∀ qs : List ℚ, (reminderTrace shown qs).2.Nodup ∧
      ∀ m ∈ (reminderTrace shown qs).2, m ∉ shown) := by
  refine ⟨?_, ?_, ?_, ?_, ?_, ?_, gdrm_not_shown shown q, ?_⟩
  · intro h
    rw [get_due_reminder_mark, if_pos h]
  · intro h
    by_cases hq : q ≤ 0
    · rw [get_due_reminder_mark, if_pos hq]
    · rw [get_due_reminder_mark, if_neg hq, if_pos h]
  · intro h0 h1 h2
    rw [get_due_reminder_mark, if_neg (not_le.mpr h0), if_neg (by omega), if_pos h2]
  · intro h0 h1 h2
    refine ⟨(pyInt q + 9) / 10 * 10, gdrm_mid shown q h0 h1 h2, by omega, by omega,
      by omega, by omega, by omega⟩
  · intro h0 h1 h2
    rw [get_due_reminder_mark, if_neg (not_le.mpr h0), if_neg (by omega), if_neg (by omega),
      if_neg (by omega)]
    by_cases hs : (300:ℤ) ∈ shown
    · rw [if_neg (by simp [hs]), if_pos hs]
    · rw [if_pos ⟨h2, hs⟩, if_neg hs]
  · intro h0 h1
    rw [get_due_reminder_mark, if_neg (not_le.mpr h0), if_neg (by omega), if_neg (by omega),
      if_neg (by omega), if_neg (by omega)]
  · intro qs
    obtain ⟨H1, H2, -⟩ := reminderTrace_spec qs shown
    exact ⟨H1, H2⟩

/-- Witness for C8 at concrete remaining times. -/
theorem C8_reminder_marks_witness :
    get_due_reminder_mark ∅ (5:ℚ) = some 5 ∧
    get_due_reminder_mark ∅ (400:ℚ) = none := by
  have h5 : pyInt (5:ℚ) = 5 := by
    rw [pyInt_eq_floor _ (by norm_num)]
    norm_num
  have h400 : pyInt (400:ℚ) = 400 := by
    rw [pyInt_eq_floor _ (by norm_num)]
    norm_num
  constructor
  · have h := (C8_reminder_marks (5:ℚ) ∅).2.2.1 (by norm_num)
      (by rw [h5]; norm_num) (by rw [h5]; norm_num)
    rw [h5] at h
    simpa using h
  · exact (C8_reminder_marks (400:ℚ) ∅).2.2.2.2.2.1 (by norm_num)
      (by rw [h400]; norm_num)

/-- C8 counterexample: with 50.5 seconds remaining and no reminder shown
yet, the code emits the mark 50, but 50.5 rounded up to a multiple of 10
(clamped to 20..60) is 60 — the only multiple of 10 in 20..60 at least the
remaining time — so the claim's description of the 11..60 band is false for
fractional remaining times; the code floors the remaining time first. -/
theorem C8_reminder_marks_counterexample :
    get_due_reminder_mark ∅ (101/2 : ℚ) = some 50 ∧
    (∀ m : ℤ, m % 10 = 0 → (101/2 : ℚ) ≤ (m : ℚ) → 20 ≤ m → m ≤ 60 → m = 60) := by
  have hpy : pyInt (101/2 : ℚ) = 50 := by
    rw [pyInt_eq_floor _ (by norm_num)]
    rw [Int.floor_eq_iff]
    constructor
    · norm_num
    · norm_num
  constructor
  · rw [gdrm_mid ∅ (101/2 : ℚ) (by norm_num) (by rw [hpy]; norm_num)
      (by rw [hpy]; norm_num), hpy]
    rw [if_neg (Finset.not_mem_empty _)]
    decide
  · intro m h10 hge h20 h60
    have hq : (101:ℚ) ≤ 2 * (m:ℚ) := by linarith
    have hz : (101:ℤ) ≤ 2 * m := by exact_mod_cast hq
    omega

/-! ### Combined print on hosts of version 2022 or earlier: U+200E ordering -/

abbrev SheetId := Nat

/-- The "Non Printable Char" of the print script: U+200E, the left-to-right
mark. -/
def NPC : Char := '‎'

/-- `sheetnumber.replace(NPC, u'')`: remove every U+200E. -/
def removeNPC (s : PyStr) : PyStr := s.filter (fun c => c != NPC)

/-- The first transaction of `_print_combined_sheets_in_order` on pre-2023
hosts: walk the target sheets in order; strip U+200E left over from
previous failed prints, record the resulting number, and prefix the sheet
at 0-based position `idx` with `idx + 1` copies of U+200E.  Returns the
updated document numbers and the recorded `original_sheetnums`. -/
def fixSheetNumbers : (SheetId → PyStr) → Nat → List SheetId → (SheetId → PyStr) × List PyStr
  | doc, _, [] => (doc, [])
  | doc, idx, t :: ts =>
    let cleaned := if NPC ∈ doc t then removeNPC (doc t) else doc t
    let doc' := fun s => if s = t then List.replicate (idx + 1) NPC ++ cleaned else doc s
    ((fixSheetNumbers doc' (idx + 1) ts).1, cleaned :: (fixSheetNumbers doc' (idx + 1) ts).2)

/-- The restoring transaction after `SubmitPrint`: zip the target sheets
with the recorded numbers and write each recorded number back. -/
def restoreSheetNumbers : (SheetId → PyStr) → List SheetId → List PyStr → (SheetId → PyStr)
  | doc, t :: ts, n :: ns => restoreSheetNumbers (fun s => if s = t then n else doc s) ts ns
  | doc, _, _ => doc

/-- The whole combined-print run as it affects sheet numbers: the state at
print submission and the final state. -/
def printCombinedRun (doc : SheetId → PyStr) (targets : List SheetId) :
    (SheetId → PyStr) × (SheetId → PyStr) :=
  ((fixSheetNumbers doc 0 targets).1,
    restoreSheetNumbers (fixSheetNumbers doc 0 targets).1 targets
      (fixSheetNumbers doc 0 targets).2)

lemma cleanedNPC_eq (s : PyStr) : (if NPC ∈ s then removeNPC s else s) = removeNPC s := by
  by_cases h : NPC ∈ s
  · rw [if_pos h]
  · rw [if_neg h]
    symm
    rw [removeNPC, List.filter_eq_self]
    intro a ha
    simp only [bne_iff_ne, ne_eq]
    rintro rfl
    exact h ha

lemma fix_untouched (ts : List SheetId) :
    ∀ (doc : SheetId → PyStr) (idx : Nat) (s : SheetId), s ∉ ts →
      (fixSheetNumbers doc idx ts).1 s = doc s := by
  induction ts with
  | nil => intro doc idx s _; rfl
  | cons t ts ih =>
    intro doc idx s hs
    have hst : s ≠ t := fun h => hs (h ▸ List.mem_cons_self _ _)
    have hsts : s ∉ ts := fun h => hs (List.mem_cons_of_mem _ h)
    simp only [fixSheetNumbers]
    rw [ih _ (idx + 1) s hsts]
    simp [hst]

lemma fix_origs (ts : List SheetId) :
    ∀ (doc : SheetId → PyStr) (idx : Nat), ts.Nodup →
      (fixSheetNumbers doc idx ts).2 = ts.map (fun t => removeNPC (doc t)) := by
  induction ts with
  | nil => intro doc idx _; rfl
  | cons t ts ih =>
    intro doc idx hnd
    obtain ⟨htnot, hnd'⟩ := List.nodup_cons.mp hnd
    simp only [fixSheetNumbers, List.map_cons, cleanedNPC_eq]
    congr 1
    rw [ih _ (idx + 1) hnd']
    apply List.map_congr_left
    intro u hu
    have hut : u ≠ t := fun h => htnot (h ▸ hu)
    simp [hut]

lemma restore_fix (ts : List SheetId) :
    ∀ (doc g : SheetId → PyStr) (idx : Nat), ts.Nodup → ∀ s : SheetId,
      restoreSheetNumbers g ts (fixSheetNumbers doc idx ts).2 s
        = if s ∈ ts then removeNPC (doc s) else g s := by
  induction ts with
  | nil =>
    intro doc g idx _ s
    simp [restoreSheetNumbers, fixSheetNumbers]
  | cons t ts ih =>
    intro doc g idx hnd s
    obtain ⟨htnot, hnd'⟩ := List.nodup_cons.mp hnd
    simp only [fixSheetNumbers, cleanedNPC_eq, restoreSheetNumbers]
    rw [ih _ _ (idx + 1) hnd' s]
    by_cases hs : s ∈ ts
    · have hst : s ≠ t := fun h => htnot (h ▸ hs)
      rw [if_pos hs, if_pos (List.mem_cons_of_mem _ hs)]
      simp [hst]
    · rw [if_neg hs]
      by_cases hst : s = t
      · subst hst
        rw [if_pos (List.mem_cons_self _ _)]
        simp
      · have hmem : s ∉ t :: ts := by
          simp [hst, hs]
        rw [if_neg hmem]
        simp [hst]

lemma fix_mid (ts : List SheetId) :
    ∀ (doc : SheetId → PyStr) (idx : Nat), ts.Nodup →
      ∀ (i : Nat) (hi : i < ts.length),
        (fixSheetNumbers doc idx ts).1 (ts.get ⟨i, hi⟩)
          = List.replicate (idx + i + 1) NPC ++ removeNPC (doc (ts.get ⟨i, hi⟩)) := by
  induction ts with
  | nil => intro doc idx _ i hi; exact absurd hi (by simp)
  | cons t ts ih =>
    intro doc idx hnd i hi
    obtain ⟨htnot, hnd'⟩ := List.nodup_cons.mp hnd
    cases i with
    | zero =>
      simp only [fixSheetNumbers, List.get]
      rw [fix_untouched ts _ (idx + 1) t htnot]
      simp [cleanedNPC_eq]
    | succ i =>
      have hi' : i < ts.length := by
        simpa [Nat.succ_lt_succ_iff] using hi
      simp only [fixSheetNumbers, List.get]
      rw [ih _ (idx + 1) hnd' i hi']
      have hu : ts.get ⟨i, hi'⟩ ∈ ts := List.get_mem ts i hi'
      have hut : ts.get ⟨i, hi'⟩ ≠ t := fun h => htnot (h ▸ hu)
      simp only [hut, if_neg, ite_false]
      rw [show idx + 1 + i + 1 = idx + (i + 1) + 1 by omega]

/-- C4 (amended): on pre-2023 hosts the combined-print routine strips every
U+200E from each target sheet's number, records the stripped numbers,
prefixes the sheet at 0-based position `i` with `i + 1` copies of U+200E
for the submitted print, and afterwards restores every target to its
recorded (stripped) number; sheets outside the target list are never
touched, and when no target number contained U+200E beforehand the sheet
numbers are unchanged overall. -/
theorem C4_combined_print_sheet_numbers (doc : SheetId → PyStr) (targets : List SheetId)
    (hnd : targets.Nodup) :
    (∀ (i : Nat) (hi : i < targets.length),
      (printCombinedRun doc targets).1 (targets.get ⟨i, hi⟩)
        = List.replicate (i + 1) NPC ++ removeNPC (doc (targets.get ⟨i, hi⟩))) ∧
    ((fixSheetNumbers doc 0 targets).2 = targets.map (fun t => removeNPC (doc t))) ∧
    (∀ s : SheetId, s ∉ targets → (printCombinedRun doc targets).2 s = doc s) ∧
    (∀ s ∈ targets, (printCombinedRun doc targets).2 s = removeNPC (doc s)) ∧
    ((∀ s ∈ targets, NPC ∉ doc s) → ∀ s : SheetId,
      (printCombinedRun doc targets).2 s = doc s) := by
  refine ⟨?_, fix_origs targets doc 0 hnd, ?_, ?_, ?_⟩
  · intro i hi
    have h := fix_mid targets doc 0 hnd i hi
    simpa using h
  · intro s hs
    show restoreSheetNumbers _ targets _ s = doc s
    rw [restore_fix targets doc _ 0 hnd s, if_neg hs]
    exact fix_untouched targets doc 0 s hs
  · intro s hs
    show restoreSheetNumbers _ targets _ s = removeNPC (doc s)
    rw [restore_fix targets doc _ 0 hnd s, if_pos hs]
  · intro hclean s
    show restoreSheetNumbers _ targets _ s = doc s
    rw [restore_fix targets doc _ 0 hnd s]
    by_cases hs : s ∈ targets
    · rw [if_pos hs, removeNPC, List.filter_eq_self]
      intro a ha
      simp only [bne_iff_ne, ne_eq]
      rintro rfl
      exact hclean s hs ha
    · rw [if_neg hs]
      exact fix_untouched targets doc 0 s hs

/-- Witness for C4 at a concrete document. -/
theorem C4_combined_print_sheet_numbers_witness :
    (printCombinedRun (fun _ => pstr "A1") [0]).2 0 = removeNPC (pstr "A1") ∧
    (printCombinedRun (fun _ => pstr "A1") [0]).2 5 = pstr "A1" :=
  ⟨(C4_combined_print_sheet_numbers (fun _ => pstr "A1") [0] (by decide)).2.2.2.1
      0 (by decide),
   (C4_combined_print_sheet_numbers (fun _ => pstr "A1") [0] (by decide)).2.2.1
      5 (by decide)⟩

/-- C4 counterexample: a target sheet whose number already contains U+200E
(left over from a previous failed print) does not end with its initial
number: the run leaves it stripped, so "the sheet numbers in the document
are unchanged overall" is false as stated. -/
theorem C4_combined_print_counterexample :
    (printCombinedRun (fun _ => [NPC, 'A']) [0]).2 0 ≠ [NPC, 'A'] := by decide

/-! ### ExcelDatabase: the CSV print ledger -/

/-- `ExcelPrintRow(file_name, drawing_name, drawing_number)`. -/
structure ExcelPrintRow where
  PrintFileName : PyStr
  DrawingName : PyStr
  DrawingNumber : PyStr
deriving DecidableEq, Repr

def HEADER_FILE_NAME : PyStr := pstr "Printed File Name"
def HEADER_DRAWING_NAME : PyStr := pstr "Drawing Name"
def HEADER_DRAWING_NUMBER : PyStr := pstr "Drawing Number"

/-- The header dictionary of `_read_print_rows_csv`: each header cell is
keyed by `_to_text(val).strip().lstrip(BOM)` (on decoded CSV cells,
`_to_text` is the cell itself); empty keys are skipped and the first
occurrence of a key wins, which for lookups equals keeping later duplicates
behind the first. -/
def buildHeaders : Nat → List PyStr → List (PyStr × Nat)
  | _, [] => []
  | i, cell :: rest =>
    let key := pyLStripBOM (pyStrip cell)
    if key = [] then buildHeaders (i + 1) rest
    else (key, i) :: buildHeaders (i + 1) rest

/-- `headers.get(name, default)`. -/
def headerGet (hs : List (PyStr × Nat)) (key : PyStr) (dflt : Nat) : Nat :=
  (hs.lookup key).getD dflt

/-- `safe_get(col_idx)`: out-of-range cells read as the empty string,
in-range cells as `_to_text(row[col_idx]).strip()`. -/
def safe_get (row : List PyStr) (i : Nat) : PyStr :=
  match row.get? i with
  | some v => pyStrip v
  | none => []

/-- `ExcelDatabase._read_print_rows_csv`.  The file argument is `none` when
the path does not exist and otherwise the decoded CSV rows. -/
def read_print_rows_csv (file : Option (List (List PyStr))) : List ExcelPrintRow :=
  match file with
  | none => []
  | some [] => []
  | some (headerRow :: rest) =>
    let hs := buildHeaders 0 headerRow
    let colFile := headerGet hs HEADER_FILE_NAME 0
    let colName := headerGet hs HEADER_DRAWING_NAME 1
    let colNum := headerGet hs HEADER_DRAWING_NUMBER 2
    rest.filterMap (fun row =>
      if row = [] then none
      else
        let dn := normalize_match_text (safe_get row colName)
        if dn = [] then none
        else some ⟨safe_get row colFile, dn, normalize_match_text (safe_get row colNum)⟩)

/-- Modelled on the words of claim C6: the index of the first header cell
equal, after trimming and BOM-stripping, to `key`, defaulting when no
header matches. -/
def findHeaderColumn (hdr : List PyStr) (key : PyStr) (dflt : Nat) : Nat :=
  (hdr.findIdx? (fun c => pyLStripBOM (pyStrip c) == key)).getD dflt

/-- Modelled on the words of claim C6: keep the data rows in file order,
resolving the three columns from the header row (defaults 0, 1, 2), omit
rows whose drawing-name cell is empty after normalization, read
out-of-range cells as empty, and yield nothing for a nonexistent file. -/
def read_print_rows_spec (file : Option (List (List PyStr))) : List ExcelPrintRow :=
  match file with
  | none => []
  | some [] => []
  | some (headerRow :: rest) =>
    let colFile := findHeaderColumn headerRow HEADER_FILE_NAME 0
    let colName := findHeaderColumn headerRow HEADER_DRAWING_NAME 1
    let colNum := findHeaderColumn headerRow HEADER_DRAWING_NUMBER 2
    rest.filterMap (fun row =>
      let dn := normalize_match_text (safe_get row colName)
      if dn = [] then none
      else some ⟨safe_get row colFile, dn, normalize_match_text (safe_get row colNum)⟩)

lemma buildHeaders_lookup (key : PyStr) (hkey : key ≠ []) (hdr : List PyStr) :
    ∀ i : Nat,
      (buildHeaders i hdr).lookup key
        = hdr.findIdx? (fun c => pyLStripBOM (pyStrip c) == key) i := by
  induction hdr with
  | nil => intro i; rfl
  | cons c rest ih =>
    intro i
    by_cases hk : pyLStripBOM (pyStrip c) = []
    · have hpred : (pyLStripBOM (pyStrip c) == key) = false := by
        rw [hk, beq_eq_false_iff_ne]
        exact fun h => hkey h.symm
      simp only [buildHeaders, if_pos hk, List.findIdx?_cons, hpred]
      exact ih (i + 1)
    · by_cases hck : pyLStripBOM (pyStrip c) = key
      · have hpred : (pyLStripBOM (pyStrip c) == key) = true := by
          rw [hck, beq_self_eq_true]
        have hback : (key == pyLStripBOM (pyStrip c)) = true := by
          rw [hck, beq_self_eq_true]
        simp only [buildHeaders, if_neg hk, List.findIdx?_cons, hpred, List.lookup, hback,
          if_true, ite_true]
      · have hpred : (pyLStripBOM (pyStrip c) == key) = false := by
          rw [beq_eq_false_iff_ne]
          exact hck
        have hback : (key == pyLStripBOM (pyStrip c)) = false := by
          rw [beq_eq_false_iff_ne]
          exact fun h => hck h.symm
        simp only [buildHeaders, if_neg hk, List.findIdx?_cons, hpred, List.lookup, hback]
        exact ih (i + 1)

lemma headerGet_eq_findHeaderColumn (hdr : List PyStr) (key : PyStr) (dflt : Nat)
    (hkey : key ≠ []) :
    headerGet (buildHeaders 0 hdr) key dflt = findHeaderColumn hdr key dflt := by
  rw [headerGet, findHeaderColumn, buildHeaders_lookup key hkey hdr 0]

/-- C6: `_read_print_rows_csv` behaves exactly as described — header-based
column resolution with defaults 0/1/2, rows in file order, rows with
normalization-empty drawing names omitted, out-of-range cells read as
empty, nonexistent file read as the empty list. -/
theorem C6_read_print_rows_csv_spec (file : Option (List (List PyStr))) :
    read_print_rows_csv file = read_print_rows_spec file := by
  match file with
  | none => rfl
  | some [] => rfl
  | some (headerRow :: rest) =>
    simp only [read_print_rows_csv, read_print_rows_spec]
    rw [headerGet_eq_findHeaderColumn headerRow HEADER_FILE_NAME 0 (by decide),
      headerGet_eq_findHeaderColumn headerRow HEADER_DRAWING_NAME 1 (by decide),
      headerGet_eq_findHeaderColumn headerRow HEADER_DRAWING_NUMBER 2 (by decide)]
    congr 1
    funext row
    by_cases hrow : row = []
    · subst hrow
      simp [safe_get, normalize_match_text, pyStrip, pyLStripBOM]
    · rw [if_neg hrow]

/-- A view sheet as `_generate_or_update_csv` reads it: its `Name` and
`SheetNumber`. -/
structure SheetInfo where
  Name : PyStr
  SheetNumber : PyStr
deriving DecidableEq, Repr

/-- The first pass of `_generate_or_update_csv` over rows already in the
file: keep the first row for each non-empty stripped drawing name. -/
def dedupExistingRows (existing : List ExcelPrintRow) : List ExcelPrintRow :=
  (existing.foldl
    (fun (acc : List ExcelPrintRow × List PyStr) row =>
      let key := pyStrip row.DrawingName
      if key = [] ∨ key ∈ acc.2 then acc else (acc.1 ++ [row], acc.2 ++ [key]))
    ([], [])).1

/-- One iteration of the sheet loop of `_generate_or_update_csv`.  The
name and number maps are association lists with single-string values (the
scope of claim C3); python dict truthiness and containment are the
emptiness and lookup tests, and the python string-truthiness tests on
mapped values are the emptiness tests. -/
def mappedNameOf (name_map number_map : List (PyStr × PyStr)) (dn dnum : PyStr) :
    Option PyStr :=
  if name_map ≠ [] ∧ (name_map.lookup dn).isSome then name_map.lookup dn
  else if number_map ≠ [] ∧ (number_map.lookup dnum).isSome then number_map.lookup dnum
  else none

/-- The `mapped_values` list computed from a mapped name: empty for an
absent, empty or normalization-empty value, otherwise the singleton of the
normalized value (single-string map values, the scope of claim C3). -/
def mappedValuesOf (mappedName : Option PyStr) : List PyStr :=
  match mappedName with
  | some m =>
    if m = [] then []
    else if normalize_match_text m = [] then [] else [normalize_match_text m]
  | none => []

def genStep (name_map number_map : List (PyStr × PyStr)) (rows : List ExcelPrintRow)
    (sheet : SheetInfo) : List ExcelPrintRow :=
  let dn := normalize_match_text sheet.Name
  let dnum := normalize_match_text sheet.SheetNumber
  if dn = [] then rows
  else
    let defaultFileName := dnum ++ pstr "_" ++ dn
    let mappedValues := mappedValuesOf (mappedNameOf name_map number_map dn dnum)
    let mappedValues' := if mappedValues = [] then [defaultFileName] else mappedValues
    rows.filter (fun r => normalize_match_text r.DrawingName != dn)
      ++ mappedValues'.map (fun v => ⟨v, dn, dnum⟩)

/-- The UTF-8 byte-order mark written before the header row: at the level
of decoded cells it prefixes U+FEFF to the first cell of the first row. -/
def withBOM (rows : List (List PyStr)) : List (List PyStr) :=
  match rows with
  | [] => []
  | [] :: rest => [[BOMchar]] :: rest
  | (cell :: cells) :: rest => ((BOMchar :: cell) :: cells) :: rest

/-- `ExcelDatabase._generate_or_update_csv` at the level of decoded CSV
rows: re-read the existing file (none when the path does not exist), dedup
it by stripped drawing name, fold the sheet loop over it, and write the
BOM, the header row and the final rows. -/
def generate_or_update_csv (existingFile : Option (List (List PyStr)))
    (sheets : List SheetInfo) (name_map number_map : List (PyStr × PyStr)) :
    List (List PyStr) :=
  let existingRows := match existingFile with
    | none => []
    | some f => read_print_rows_csv (some f)
  let finalRows := sheets.foldl (genStep name_map number_map) (dedupExistingRows existingRows)
  withBOM
    ([HEADER_FILE_NAME, HEADER_DRAWING_NAME, HEADER_DRAWING_NUMBER] ::
      finalRows.map (fun r => [r.PrintFileName, r.DrawingName, r.DrawingNumber]))

/-! ### ExcelDatabase: extension dispatch (CSV vs COM automation) -/

/-- The basename of a Windows path: the part after the last `\` or `/`. -/
def ntBasename (path : PyStr) : PyStr :=
  (path.reverse.takeWhile (fun c => c != '\\' && c != '/')).reverse

/-- The extension `ntpath.splitext(path)[1]`: the suffix from the last dot
of the basename, provided some earlier basename character is not a dot
(leading dots of a hidden-file-style name never start an extension). -/
def splitextExt (path : PyStr) : PyStr :=
  let b := ntBasename path
  let stem := b.dropWhile (fun c => c == '.')
  if stem.contains '.' then
    '.' :: (stem.reverse.takeWhile (fun c => c != '.')).reverse
  else []

/-- `ExcelDatabase._is_csv_path`: the lower-cased extension is ".csv". -/
def is_csv_path (path : PyStr) : Bool := pyLower (splitextExt path) == pstr ".csv"

inductive ExcelBackend where
  | csvFile
  | comAutomation
deriving DecidableEq, Repr

/-- `ExcelDatabase.generate_or_update`: ".csv" paths are handled entirely
by `_generate_or_update_csv` and no COM object is created; every other
path goes through COM automation of "Excel.Application", raising when the
ProgID resolves to no type.  The COM workbook contents are outside the
embedding (`none`); the chosen backend is recorded. -/
def generate_or_update (excelInstalled : Bool) (path : PyStr)
    (existingFile : Option (List (List PyStr))) (sheets : List SheetInfo)
    (name_map number_map : List (PyStr × PyStr)) :
    Except PyStr (ExcelBackend × Option (List (List PyStr))) :=
  if is_csv_path path then
    Except.ok (ExcelBackend.csvFile,
      some (generate_or_update_csv existingFile sheets name_map number_map))
  else if excelInstalled = false then Except.error (pstr "Excel is not installed.")
  else Except.ok (ExcelBackend.comAutomation, none)

/-- `ExcelDatabase.read_print_rows`: ".csv" paths are handled entirely by
`_read_print_rows_csv`; every other path goes through COM automation,
raising when Excel is not installed.  Rows read through COM are outside
the embedding (returned empty); the chosen backend is recorded. -/
def read_print_rows (excelInstalled : Bool) (path : PyStr)
    (file : Option (List (List PyStr))) :
    Except PyStr (ExcelBackend × List ExcelPrintRow) :=
  if is_csv_path path then Except.ok (ExcelBackend.csvFile, read_print_rows_csv file)
  else if excelInstalled = false then Except.error (pstr "Excel is not installed.")
  else Except.ok (ExcelBackend.comAutomation, [])

/-- C7: `generate_or_update` and `read_print_rows` dispatch purely on the
file extension; ".csv" paths (case-insensitively) run the CSV code paths
independently of whether Excel is installed, and all other paths run COM
automation, which raises "Excel is not installed." when the Excel
application type is unavailable. -/
theorem C7_extension_dispatch (path : PyStr) (installed : Bool)
    (existingFile file : Option (List (List PyStr))) (sheets : List SheetInfo)
    (nm numm : List (PyStr × PyStr)) :
    (is_csv_path path = (pyLower (splitextExt path) == pstr ".csv")) ∧
    (pyLower (splitextExt path) = pstr ".csv" →
      generate_or_update installed path existingFile sheets nm numm
          = Except.ok (ExcelBackend.csvFile,
              some (generate_or_update_csv existingFile sheets nm numm)) ∧
      read_print_rows installed path file
          = Except.ok (ExcelBackend.csvFile, read_print_rows_csv file)) ∧
    (pyLower (splitextExt path) ≠ pstr ".csv" →
      (installed = false →
        generate_or_update installed path existingFile sheets nm numm
            = Except.error (pstr "Excel is not installed.") ∧
        read_print_rows installed path file
            = Except.error (pstr "Excel is not installed.")) ∧
      (installed = true →
        generate_or_update installed path existingFile sheets nm numm
            = Except.ok (ExcelBackend.comAutomation, none) ∧
        read_print_rows installed path file
            = Except.ok (ExcelBackend.comAutomation, []))) := by
  refine ⟨rfl, ?_, ?_⟩
  · intro h
    have hcsv : is_csv_path path = true := by
      rw [is_csv_path, h, beq_self_eq_true]
    rw [generate_or_update, if_pos hcsv, read_print_rows, if_pos hcsv]
    exact ⟨rfl, rfl⟩
  · intro h
    have hcsv : is_csv_path path = false := by
      rw [is_csv_path, beq_eq_false_iff_ne]
      exact h
    have hcsv' : ¬ is_csv_path path = true := by
      rw [hcsv]
      exact Bool.false_ne_true
    constructor
    · intro hinst
      rw [generate_or_update, if_neg hcsv', if_pos hinst,
        read_print_rows, if_neg hcsv', if_pos hinst]
      exact ⟨rfl, rfl⟩
    · intro hinst
      have hinst' : ¬ installed = false := by
        rw [hinst]
        simp
      rw [generate_or_update, if_neg hcsv', if_neg hinst',
        read_print_rows, if_neg hcsv', if_neg hinst']
      exact ⟨rfl, rfl⟩

/-- Witness for C7 at concrete paths. -/
theorem C7_extension_dispatch_witness :
    read_print_rows true (pstr "C:\\work\\Ledger.CSV") none
        = Except.ok (ExcelBackend.csvFile, read_print_rows_csv none) ∧
    generate_or_update false (pstr "C:\\work\\Ledger.xlsx") none [] [] []
        = Except.error (pstr "Excel is not installed.") :=
  ⟨((C7_extension_dispatch (pstr "C:\\work\\Ledger.CSV") true none none [] [] []).2.1
      (by decide)).2,
   ((C7_extension_dispatch (pstr "C:\\work\\Ledger.xlsx") false none none [] [] []).2.2
      (by decide)).1 rfl |>.1⟩

/-! ### Stability lemmas for stripping and normalization -/

lemma dropWhile_eq_self_of_head (p : Char → Bool) (l : PyStr)
    (h : ∀ a, l.head? = some a → p a = false) : l.dropWhile p = l := by
  cases l with
  | nil => rfl
  | cons a t =>
    have ha := h a rfl
    rw [List.dropWhile_cons, if_neg (by simp [ha])]

lemma dropWhile_head_false (p : Char → Bool) (l : PyStr) :
    ∀ a, (l.dropWhile p).head? = some a → p a = false := by
  intro a ha
  have hne : l.dropWhile p ≠ [] := by
    intro hnil
    rw [hnil] at ha
    cases ha
  have hhead := List.head_dropWhile_not p l hne
  rw [(List.head_eq_iff_head?_eq_some hne).mpr ha] at hhead
  exact hhead

lemma pyStrip_getLast_false (s : PyStr) :
    ∀ a, (pyStrip s).getLast? = some a → pyIsSpace a = false := by
  intro a ha
  rw [pyStrip, List.getLast?_reverse] at ha
  exact dropWhile_head_false pyIsSpace _ a ha

lemma pyStrip_head_false (s : PyStr) :
    ∀ a, (pyStrip s).head? = some a → pyIsSpace a = false := by
  intro a ha
  rw [pyStrip, List.head?_reverse] at ha
  have hvne : (s.dropWhile pyIsSpace).reverse.dropWhile pyIsSpace ≠ [] := by
    intro hnil
    rw [hnil] at ha
    cases ha
  obtain ⟨pre, hpre⟩ :=
    List.dropWhile_suffix (l := (s.dropWhile pyIsSpace).reverse) (p := pyIsSpace)
  rw [show ((s.dropWhile pyIsSpace).reverse.dropWhile pyIsSpace).getLast?
      = (s.dropWhile pyIsSpace).reverse.getLast? by
    conv_rhs => rw [← hpre]
    rw [List.getLast?_append_of_ne_nil _ hvne]] at ha
  rw [List.getLast?_reverse] at ha
  exact dropWhile_head_false pyIsSpace s a ha

lemma pyStrip_stable_of (l : PyStr)
    (hhead : ∀ a, l.head? = some a → pyIsSpace a = false)
    (hlast : ∀ a, l.getLast? = some a → pyIsSpace a = false) :
    pyStrip l = l := by
  rw [pyStrip, dropWhile_eq_self_of_head pyIsSpace l hhead,
    dropWhile_eq_self_of_head pyIsSpace l.reverse
      (fun a ha => hlast a (by rwa [List.head?_reverse] at ha)),
    List.reverse_reverse]

lemma pyStrip_idem (s : PyStr) : pyStrip (pyStrip s) = pyStrip s :=
  pyStrip_stable_of _ (pyStrip_head_false s) (pyStrip_getLast_false s)

lemma noBOM_pyStrip {s : PyStr} (h : BOMchar ∉ s) : BOMchar ∉ pyStrip s := by
  intro hmem
  apply h
  simp only [pyStrip, List.mem_reverse] at hmem
  have h2 := (List.dropWhile_sublist
    (l := (s.dropWhile pyIsSpace).reverse) (p := pyIsSpace)).subset hmem
  rw [List.mem_reverse] at h2
  exact (List.dropWhile_sublist (l := s) (p := pyIsSpace)).subset h2

lemma pyLStripBOM_of_noBOM {s : PyStr} (h : BOMchar ∉ s) : pyLStripBOM s = s := by
  apply dropWhile_eq_self_of_head
  intro a ha
  have hane : a ∈ s := by
    cases s with
    | nil => cases ha
    | cons c t =>
      cases ha
      exact List.mem_cons_self _ _
  rw [beq_eq_false_iff_ne]
  rintro rfl
  exact h hane

lemma norm_of_noBOM {s : PyStr} (h : BOMchar ∉ s) :
    normalize_match_text s = pyStrip s := by
  rw [normalize_match_text, pyLStripBOM_of_noBOM (noBOM_pyStrip h)]

lemma norm_idem_of_noBOM {s : PyStr} (h : BOMchar ∉ s) :
    normalize_match_text (normalize_match_text s) = normalize_match_text s := by
  rw [norm_of_noBOM h, norm_of_noBOM (noBOM_pyStrip h), pyStrip_idem]

lemma default_fileName_stable (x y : PyStr) (hy : pyStrip y ≠ []) :
    pyStrip (pyStrip x ++ pstr "_" ++ pyStrip y) = pyStrip x ++ pstr "_" ++ pyStrip y := by
  apply pyStrip_stable_of
  · intro a ha
    cases hx : pyStrip x with
    | nil =>
      rw [hx] at ha
      simp only [List.nil_append] at ha
      rw [show (pstr "_" ++ pyStrip y).head? = some '_' from rfl] at ha
      cases ha
      decide
    | cons c t =>
      rw [hx] at ha
      simp only [List.cons_append, List.head?_cons, Option.some.injEq] at ha
      subst ha
      apply pyStrip_head_false x
      rw [hx]
      rfl
  · intro a ha
    rw [List.append_assoc, List.getLast?_append_of_ne_nil _
      (by simp [hy] : pstr "_" ++ pyStrip y ≠ []),
      show pstr "_" ++ pyStrip y = '_' :: pyStrip y from rfl,
      show ('_' :: pyStrip y : PyStr) = ['_'] ++ pyStrip y from rfl,
      List.getLast?_append_of_ne_nil _ hy] at ha
    exact pyStrip_getLast_false y a ha

lemma lookup_some_mem {l : List (PyStr × PyStr)} {k v : PyStr}
    (h : l.lookup k = some v) : (k, v) ∈ l := by
  induction l with
  | nil => cases h
  | cons p t ih =>
    obtain ⟨k', v'⟩ := p
    rw [List.lookup] at h
    cases hk : k == k' with
    | true =>
      rw [hk] at h
      cases h
      have : k = k' := by
        rwa [beq_iff_eq] at hk
      subst this
      exact List.mem_cons_self _ _
    | false =>
      rw [hk] at h
      exact List.mem_cons_of_mem _ (ih h)

/-! ### The CSV round trip (claim C3) -/

/-- The file name the ledger records for a sheet: the normalized mapped
value when one applies and normalizes non-empty, else the default
"number_name". -/
def fileNameOf (name_map number_map : List (PyStr × PyStr)) (dn dnum : PyStr) : PyStr :=
  match mappedValuesOf (mappedNameOf name_map number_map dn dnum) with
  | [] => dnum ++ pstr "_" ++ dn
  | v :: _ => v

/-- The row the write-then-read round trip is expected to yield per sheet. -/
def expectedRow (name_map number_map : List (PyStr × PyStr)) (s : SheetInfo) :
    ExcelPrintRow :=
  ⟨fileNameOf name_map number_map (normalize_match_text s.Name)
      (normalize_match_text s.SheetNumber),
   normalize_match_text s.Name, normalize_match_text s.SheetNumber⟩

lemma mappedValuesOf_cases (o : Option PyStr) :
    mappedValuesOf o = [] ∨
      ∃ m, o = some m ∧ mappedValuesOf o = [normalize_match_text m] := by
  match o with
  | none => exact Or.inl rfl
  | some m =>
    by_cases h1 : m = []
    · exact Or.inl (by simp [mappedValuesOf, h1])
    · by_cases h2 : normalize_match_text m = []
      · exact Or.inl (by simp [mappedValuesOf, h1, h2])
      · exact Or.inr ⟨m, rfl, by simp [mappedValuesOf, h1, h2]⟩

lemma mappedNameOf_lookup (nm numm : List (PyStr × PyStr)) (dn dnum m : PyStr)
    (h : mappedNameOf nm numm dn dnum = some m) :
    nm.lookup dn = some m ∨ numm.lookup dnum = some m := by
  rw [mappedNameOf] at h
  by_cases c1 : nm ≠ [] ∧ (nm.lookup dn).isSome
  · rw [if_pos c1] at h
    exact Or.inl h
  · rw [if_neg c1] at h
    by_cases c2 : numm ≠ [] ∧ (numm.lookup dnum).isSome
    · rw [if_pos c2] at h
      exact Or.inr h
    · rw [if_neg c2] at h
      cases h

lemma genStep_eq (nm numm : List (PyStr × PyStr)) (rows : List ExcelPrintRow)
    (s : SheetInfo) (hdn : normalize_match_text s.Name ≠ []) :
    genStep nm numm rows s
      = rows.filter
          (fun r => normalize_match_text r.DrawingName != normalize_match_text s.Name)
        ++ [expectedRow nm numm s] := by
  rcases mappedValuesOf_cases
      (mappedNameOf nm numm (normalize_match_text s.Name)
        (normalize_match_text s.SheetNumber)) with hmv | ⟨m, -, hmv⟩
  · simp [genStep, if_neg hdn, hmv, expectedRow, fileNameOf]
  · simp [genStep, if_neg hdn, hmv, expectedRow, fileNameOf]

lemma foldl_genStep_eq (nm numm : List (PyStr × PyStr)) (sheets : List SheetInfo) :
    ∀ rows : List ExcelPrintRow,
      (∀ r ∈ rows, normalize_match_text r.DrawingName = r.DrawingName) →
      (∀ s ∈ sheets, normalize_match_text s.Name ≠ []) →
      (∀ s ∈ sheets,
        normalize_match_text (normalize_match_text s.Name) = normalize_match_text s.Name) →
      (∀ s ∈ sheets, ∀ r ∈ rows, r.DrawingName ≠ normalize_match_text s.Name) →
      (sheets.map (fun s => normalize_match_text s.Name)).Nodup →
      sheets.foldl (genStep nm numm) rows = rows ++ sheets.map (expectedRow nm numm) := by
  induction sheets with
  | nil => intro rows _ _ _ _ _; simp
  | cons s ss ih =>
    intro rows h1 h2 h3 h4 h5
    have hdn : normalize_match_text s.Name ≠ [] := h2 s (List.mem_cons_self _ _)
    rw [List.foldl_cons, genStep_eq nm numm rows s hdn]
    have hfilter : rows.filter
        (fun r => normalize_match_text r.DrawingName != normalize_match_text s.Name)
        = rows := by
      rw [List.filter_eq_self]
      intro r hr
      rw [bne_iff_ne, h1 r hr]
      exact h4 s (List.mem_cons_self _ _) r hr
    rw [hfilter]
    rw [List.map_cons, List.nodup_cons] at h5
    rw [ih (rows ++ [expectedRow nm numm s])
      (by
        intro r hr
        rcases List.mem_append.mp hr with hr | hr
        · exact h1 r hr
        · rw [List.mem_singleton] at hr
          subst hr
          exact h3 s (List.mem_cons_self _ _))
      (fun s' hs' => h2 s' (List.mem_cons_of_mem _ hs'))
      (fun s' hs' => h3 s' (List.mem_cons_of_mem _ hs'))
      (by
        intro s' hs' r hr
        rcases List.mem_append.mp hr with hr | hr
        · exact h4 s' (List.mem_cons_of_mem _ hs') r hr
        · rw [List.mem_singleton] at hr
          subst hr
          show normalize_match_text s.Name ≠ normalize_match_text s'.Name
          intro hcontra
          exact h5.1 (hcontra ▸ List.mem_map_of_mem _ hs'))
      h5.2]
    simp [List.append_assoc]

/-- The header row as written: the UTF-8 BOM is decoded into the first
header cell. -/
def writtenHeaderRow : List PyStr :=
  (BOMchar :: HEADER_FILE_NAME) :: [HEADER_DRAWING_NAME, HEADER_DRAWING_NUMBER]

/-- Reading one written data row back. -/
def readRowCells (row : List PyStr) : Option ExcelPrintRow :=
  if row = [] then none
  else
    let dn := normalize_match_text (safe_get row 1)
    if dn = [] then none
    else some ⟨safe_get row 0, dn, normalize_match_text (safe_get row 2)⟩

lemma read_written (data : List (List PyStr)) :
    read_print_rows_csv (some (writtenHeaderRow :: data)) = data.filterMap readRowCells := by
  simp only [read_print_rows_csv, writtenHeaderRow]
  simp only [show headerGet (buildHeaders 0
      ((BOMchar :: HEADER_FILE_NAME) :: [HEADER_DRAWING_NAME, HEADER_DRAWING_NUMBER]))
      HEADER_FILE_NAME 0 = 0 from by decide,
    show headerGet (buildHeaders 0
      ((BOMchar :: HEADER_FILE_NAME) :: [HEADER_DRAWING_NAME, HEADER_DRAWING_NUMBER]))
      HEADER_DRAWING_NAME 1 = 1 from by decide,
    show headerGet (buildHeaders 0
      ((BOMchar :: HEADER_FILE_NAME) :: [HEADER_DRAWING_NAME, HEADER_DRAWING_NUMBER]))
      HEADER_DRAWING_NUMBER 2 = 2 from by decide]
  congr 1

lemma read_back (rows : List ExcelPrintRow)
    (hst : ∀ r ∈ rows,
      pyStrip r.PrintFileName = r.PrintFileName ∧
      pyStrip r.DrawingName = r.DrawingName ∧
      normalize_match_text r.DrawingName = r.DrawingName ∧
      r.DrawingName ≠ [] ∧
      pyStrip r.DrawingNumber = r.DrawingNumber ∧
      normalize_match_text r.DrawingNumber = r.DrawingNumber) :
    read_print_rows_csv (some (writtenHeaderRow ::
      rows.map (fun r => [r.PrintFileName, r.DrawingName, r.DrawingNumber]))) = rows := by
  rw [read_written]
  induction rows with
  | nil => rfl
  | cons r rs ih =>
    obtain ⟨hP, hDN1, hDN2, hDN3, hNum1, hNum2⟩ := hst r (List.mem_cons_self _ _)
    have hf : readRowCells [r.PrintFileName, r.DrawingName, r.DrawingNumber] = some r := by
      rw [readRowCells, if_neg (by simp)]
      have e1 : safe_get [r.PrintFileName, r.DrawingName, r.DrawingNumber] 1
          = r.DrawingName := by
        show pyStrip r.DrawingName = r.DrawingName
        exact hDN1
      have e0 : safe_get [r.PrintFileName, r.DrawingName, r.DrawingNumber] 0
          = r.PrintFileName := by
        show pyStrip r.PrintFileName = r.PrintFileName
        exact hP
      have e2 : safe_get [r.PrintFileName, r.DrawingName, r.DrawingNumber] 2
          = r.DrawingNumber := by
        show pyStrip r.DrawingNumber = r.DrawingNumber
        exact hNum1
      simp only [e0, e1, e2, hDN2]
      rw [if_neg hDN3, hNum2]
    rw [List.map_cons, List.filterMap_cons, hf]
    rw [ih (fun r' hr' => hst r' (List.mem_cons_of_mem _ hr'))]

/-- C3 (amended): starting from a nonexistent CSV path, writing the ledger
and reading it back yields exactly one row per sheet in sheet order;
`DrawingName`/`DrawingNumber` are the normalized `Name`/`SheetNumber`, and
`PrintFileName` is the normalized mapped value when the name map (or else
the number map) contains the sheet and that value normalizes to something
non-empty, and the default "number_name" otherwise — for sheets and map
values free of U+FEFF (whose presence makes normalization unstable and can
drop or alter rows, see the counterexample). -/
theorem C3_csv_round_trip (sheets : List SheetInfo) (nm numm : List (PyStr × PyStr))
    (hcleanName : ∀ s ∈ sheets, BOMchar ∉ s.Name)
    (hcleanNum : ∀ s ∈ sheets, BOMchar ∉ s.SheetNumber)
    (hnames : ∀ s ∈ sheets, normalize_match_text s.Name ≠ [])
    (hnodup : (sheets.map (fun s => normalize_match_text s.Name)).Nodup)
    (hnm : ∀ p ∈ nm, BOMchar ∉ p.2)
    (hnumm : ∀ p ∈ numm, BOMchar ∉ p.2) :
    read_print_rows_csv (some (generate_or_update_csv none sheets nm numm))
      = sheets.map (expectedRow nm numm) := by
  rw [show generate_or_update_csv none sheets nm numm
      = writtenHeaderRow :: (sheets.foldl (genStep nm numm) []).map
          (fun r => [r.PrintFileName, r.DrawingName, r.DrawingNumber]) from rfl]
  rw [foldl_genStep_eq nm numm sheets [] (by simp) hnames
    (fun s hs => norm_idem_of_noBOM (hcleanName s hs)) (by simp) hnodup]
  rw [List.nil_append]
  apply read_back
  intro r hr
  obtain ⟨s, hs, rfl⟩ := List.mem_map.mp hr
  have hN : BOMchar ∉ s.Name := hcleanName s hs
  have hNum : BOMchar ∉ s.SheetNumber := hcleanNum s hs
  have hdnEq : normalize_match_text s.Name = pyStrip s.Name := norm_of_noBOM hN
  have hnumEq : normalize_match_text s.SheetNumber = pyStrip s.SheetNumber :=
    norm_of_noBOM hNum
  refine ⟨?_, ?_, norm_idem_of_noBOM hN, hnames s hs, ?_, norm_idem_of_noBOM hNum⟩
  · show pyStrip (fileNameOf nm numm (normalize_match_text s.Name)
      (normalize_match_text s.SheetNumber))
      = fileNameOf nm numm (normalize_match_text s.Name)
          (normalize_match_text s.SheetNumber)
    rcases mappedValuesOf_cases (mappedNameOf nm numm (normalize_match_text s.Name)
        (normalize_match_text s.SheetNumber)) with hmv | ⟨m, hm, hmv⟩
    · simp only [fileNameOf, hmv]
      rw [hdnEq, hnumEq]
      exact default_fileName_stable s.SheetNumber s.Name
        (by rw [← hdnEq]; exact hnames s hs)
    · simp only [fileNameOf, hmv]
      have hmBOM : BOMchar ∉ m := by
        rcases mappedNameOf_lookup _ _ _ _ _ hm with hl | hl
        · exact hnm _ (lookup_some_mem hl)
        · exact hnumm _ (lookup_some_mem hl)
      rw [norm_of_noBOM hmBOM, pyStrip_idem]
  · show pyStrip (normalize_match_text s.Name) = normalize_match_text s.Name
    rw [hdnEq]
    exact pyStrip_idem _
  · show pyStrip (normalize_match_text s.SheetNumber) = normalize_match_text s.SheetNumber
    rw [hnumEq]
    exact pyStrip_idem _

/-- Witness for C3 at a concrete sheet list. -/
theorem C3_csv_round_trip_witness :
    read_print_rows_csv (some (generate_or_update_csv none
        [⟨pstr "Plan", pstr "A1"⟩] [] []))
      = [⟨pstr "A1_Plan", pstr "Plan", pstr "A1"⟩] := by
  have h := C3_csv_round_trip [⟨pstr "Plan", pstr "A1"⟩] [] []
    (by decide) (by decide) (by decide) (by decide) (by decide) (by decide)
  rw [h]
  decide

/-- C3 counterexample: the sheet name U+FEFF, space, U+FEFF is non-empty
(even after normalization, which yields space-then-U+FEFF), yet the
write-then-read round trip returns no row at all for it — normalization is
not idempotent across the strip-then-BOM-strip order, so the re-read
drawing name normalizes to empty and the row is dropped, refuting "exactly
one row per sheet" as stated. -/
theorem C3_csv_round_trip_counterexample :
    normalize_match_text [BOMchar, ' ', BOMchar] ≠ [] ∧
    (read_print_rows_csv (some (generate_or_update_csv none
        [⟨[BOMchar, ' ', BOMchar], pstr "A1"⟩] [] []))).length ≠ 1 := by decide
